import Mathlib

/-!
Verification of the ring-dataset generation and splitting code of
`bspytasks` (files `bspytasks/ring/data.py` and `bspytasks/datasets/ring.py`).

Shallow embedding conventions:
* numpy / torch random draws are externalized as explicit arguments:
  `torch.randperm(n)` and `np.random.permutation(n)` become a `List ℕ`
  argument constrained by `perm.Perm (List.range n)` in the theorems;
  `np.random.uniform(low, high)` / `np.random.rand()` draws become functions
  `ℕ → ℝ` (or pre-drawn rational pairs), with `uniform low high u = low + (high - low) * u`.
* Python `assert` becomes `Option`: a failing assertion returns `none`.
* float scalars are modelled by `ℚ` where only field arithmetic and
  comparisons occur, and by `ℝ` where `sqrt` / `cos` / `sin` appear.
  (The default split fractions `[0.8, 0.1, 0.1]` sum to exactly `1.0` in
  IEEE double arithmetic, and `floor(0.8*100) = 80`, `floor(0.9*100) = 90`
  there as well, so the exact rational model agrees with the float code on
  every quantity the claims touch.)
* numpy fancy indexing `a[idx]` becomes `idx.map (fun i => a.getD i d)`;
  all uses are in-bounds under the stated permutation hypotheses.
-/

namespace Bspy

/-! ### `bspytasks/ring/data.py`: balanced interleaving (Component C) -/

/-- The `result` accumulation loop shared by `balanced_permutation` and
`get_balanced_distribution_indices`: `for i in range(len(class0)):
result.append(class0[i]); result.append(class1[i])`.  Both call sites reach
the loop only after asserting `len(class0) == len(class1)`, where the loop
is exactly this zip-style interleaving. -/
def interleave : List ℕ → List ℕ → List ℕ
  | [], _ => []
  | _, [] => []
  | a :: as, b :: bs => a :: b :: interleave as bs

/-- `balanced_permutation(len_indices)` from `bspytasks/ring/data.py`
(lines 210-221).  `permuted_indices` models the `torch.randperm(len_indices)`
draw; the even-valued entries form `class0`, the odd-valued ones `class1`,
the assert `len(class0) == len(class1)` is the `if`, and the result is the
interleaving loop. -/
def balanced_permutation (permuted_indices : List ℕ) : Option (List ℕ) :=
  let class0 := permuted_indices.filter (fun i => i % 2 = 0)
  let class1 := permuted_indices.filter (fun i => i % 2 = 1)
  if class0.length = class1.length then
    some (interleave class0 class1)
  else
    none

/-- `RingDatasetGenerator.get_balanced_distribution_indices(data_length)`
(lines 81-92): same shape as `balanced_permutation` but over
`np.random.permutation(data_length)` with the groups split at
`int(data_length / 2)` instead of by parity. -/
def get_balanced_distribution_indices (data_length : ℕ) (permuted_indices : List ℕ) :
    Option (List ℕ) :=
  let class0 := permuted_indices.filter (fun i => i < data_length / 2)
  let class1 := permuted_indices.filter (fun i => ¬ i < data_length / 2)
  if class0.length = class1.length then
    some (interleave class0 class1)
  else
    none

/-! #### Counting helpers -/

theorem countP_range_succ (p : ℕ → Bool) (n : ℕ) :
    List.countP p (List.range (n + 1)) =
      List.countP p (List.range n) + (if p n then 1 else 0) := by
  rw [List.range_succ, List.countP_append]
  simp [List.countP_cons]

theorem countP_even_range (n : ℕ) :
    List.countP (fun i => i % 2 = 0) (List.range n) = (n + 1) / 2 := by
  induction n with
  | zero => simp
  | succ n ih =>
    rw [countP_range_succ, ih]
    by_cases h : n % 2 = 0 <;> simp [h] <;> omega

theorem countP_odd_range (n : ℕ) :
    List.countP (fun i => i % 2 = 1) (List.range n) = n / 2 := by
  induction n with
  | zero => simp
  | succ n ih =>
    rw [countP_range_succ, ih]
    by_cases h : n % 2 = 1 <;> simp [h] <;> omega

theorem countP_lt_range (n k : ℕ) :
    List.countP (fun i => i < k) (List.range n) = min k n := by
  induction n with
  | zero => simp
  | succ n ih =>
    rw [countP_range_succ, ih]
    by_cases h : n < k <;> simp [h] <;> omega

theorem countP_not_lt_range (n k : ℕ) :
    List.countP (fun i => ¬ i < k) (List.range n) = n - min k n := by
  induction n with
  | zero => simp
  | succ n ih =>
    rw [countP_range_succ, ih]
    by_cases h : n < k <;> simp [h] <;> omega

/-! #### Interleave lemmas -/

theorem interleave_length {xs ys : List ℕ} (h : xs.length = ys.length) :
    (interleave xs ys).length = xs.length + ys.length := by
  induction xs generalizing ys with
  | nil => cases ys with
    | nil => simp [interleave]
    | cons b bs => simp at h
  | cons a as ih =>
    cases ys with
    | nil => simp at h
    | cons b bs =>
      simp only [List.length_cons] at h
      simp [interleave, ih (Nat.succ_injective h)]
      omega

theorem interleave_perm_append {xs ys : List ℕ} (h : xs.length = ys.length) :
    (interleave xs ys).Perm (xs ++ ys) := by
  induction xs generalizing ys with
  | nil => cases ys with
    | nil => simp [interleave]
    | cons b bs => simp at h
  | cons a as ih =>
    cases ys with
    | nil => simp at h
    | cons b bs =>
      simp only [List.length_cons] at h
      have step : (interleave as bs).Perm (as ++ bs) := ih (Nat.succ_injective h)
      refine ((step.cons b).cons a).trans ?_
      exact List.perm_middle.symm.cons a

theorem interleave_getD {xs ys : List ℕ} (d : ℕ) (h : xs.length = ys.length) :
    ∀ i, i < xs.length →
      (interleave xs ys).getD (2 * i) d = xs.getD i d ∧
      (interleave xs ys).getD (2 * i + 1) d = ys.getD i d := by
  induction xs generalizing ys with
  | nil => intro i hi; simp at hi
  | cons a as ih =>
    cases ys with
    | nil => simp at h
    | cons b bs =>
      simp only [List.length_cons] at h
      intro i hi
      cases i with
      | zero => simp [interleave]
      | succ j =>
        have hj : j < as.length := by
          simp only [List.length_cons] at hi; omega
        have h2 : 2 * (j + 1) = (2 * j + 1) + 1 := by omega
        rw [h2]
        simpa [interleave, List.getD_cons_succ] using
          ih (Nat.succ_injective h) j hj

/-! #### Behaviour of the two interleaving functions on a true permutation -/

theorem parity_filter_lengths {n : ℕ} {perm : List ℕ} (hp : perm.Perm (List.range n)) :
    (perm.filter (fun i => i % 2 = 0)).length = (n + 1) / 2 ∧
    (perm.filter (fun i => i % 2 = 1)).length = n / 2 := by
  constructor
  · rw [← List.countP_eq_length_filter, hp.countP_eq, countP_even_range]
  · rw [← List.countP_eq_length_filter, hp.countP_eq, countP_odd_range]

theorem parity_filter_append_perm (perm : List ℕ) :
    (perm.filter (fun i => i % 2 = 0) ++ perm.filter (fun i => i % 2 = 1)).Perm perm := by
  have hcongr : perm.filter (fun i => i % 2 = 1) =
      perm.filter (fun i => !(decide (i % 2 = 0))) := by
    refine List.filter_congr ?_
    intro x _
    by_cases h : x % 2 = 0 <;> simp [h]
    omega
  rw [hcongr]
  exact List.filter_append_perm _ perm

theorem balanced_permutation_some {n : ℕ} {perm : List ℕ}
    (hn : n % 2 = 0) (hp : perm.Perm (List.range n)) :
    ∃ result, balanced_permutation perm = some result ∧
      result.Perm (List.range n) ∧ result.length = n ∧
      ∀ i, i < n / 2 →
        (result.getD (2 * i) 0) % 2 = 0 ∧ (result.getD (2 * i + 1) 0) % 2 = 1 := by
  obtain ⟨h0, h1⟩ := parity_filter_lengths hp
  have hlen : (perm.filter (fun i => i % 2 = 0)).length =
      (perm.filter (fun i => i % 2 = 1)).length := by omega
  refine ⟨interleave (perm.filter (fun i => i % 2 = 0))
      (perm.filter (fun i => i % 2 = 1)), ?_, ?_, ?_, ?_⟩
  · simp only [balanced_permutation, hlen, if_pos]
  · exact ((interleave_perm_append hlen).trans (parity_filter_append_perm perm)).trans hp
  · rw [interleave_length hlen]; omega
  · intro i hi
    have hi0 : i < (perm.filter (fun i => i % 2 = 0)).length := by omega
    have hi1 : i < (perm.filter (fun i => i % 2 = 1)).length := by omega
    obtain ⟨he, ho⟩ := interleave_getD 0 hlen i hi0
    constructor
    · rw [he, List.getD_eq_getElem _ _ hi0]
      have hmem := List.getElem_mem hi0
      have := List.of_mem_filter hmem
      simpa using this
    · rw [ho, List.getD_eq_getElem _ _ hi1]
      have hmem := List.getElem_mem hi1
      have := List.of_mem_filter hmem
      simpa using this

theorem balanced_permutation_none {n : ℕ} {perm : List ℕ}
    (hn : n % 2 = 1) (hp : perm.Perm (List.range n)) :
    balanced_permutation perm = none := by
  obtain ⟨h0, h1⟩ := parity_filter_lengths hp
  have hne : (perm.filter (fun i => i % 2 = 0)).length ≠
      (perm.filter (fun i => i % 2 = 1)).length := by omega
  simp only [balanced_permutation, if_neg hne]

theorem half_filter_lengths {n : ℕ} {perm : List ℕ} (hp : perm.Perm (List.range n)) :
    (perm.filter (fun i => i < n / 2)).length = n / 2 ∧
    (perm.filter (fun i => ¬ i < n / 2)).length = n - n / 2 := by
  constructor
  · rw [← List.countP_eq_length_filter, hp.countP_eq, countP_lt_range]
    omega
  · rw [← List.countP_eq_length_filter, hp.countP_eq, countP_not_lt_range]
    omega

theorem half_filter_append_perm (k : ℕ) (perm : List ℕ) :
    (perm.filter (fun i => i < k) ++ perm.filter (fun i => ¬ i < k)).Perm perm := by
  have hcongr : perm.filter (fun i => ¬ i < k) =
      perm.filter (fun i => !(decide (i < k))) := by
    refine List.filter_congr ?_
    intro x _
    by_cases h : x < k <;> simp [h]
  rw [hcongr]
  exact List.filter_append_perm _ perm

theorem get_balanced_distribution_indices_some {n : ℕ} {perm : List ℕ}
    (hn : n % 2 = 0) (hp : perm.Perm (List.range n)) :
    ∃ indices, get_balanced_distribution_indices n perm = some indices ∧
      indices.Perm (List.range n) ∧ indices.length = n := by
  obtain ⟨h0, h1⟩ := half_filter_lengths hp
  have hlen : (perm.filter (fun i => i < n / 2)).length =
      (perm.filter (fun i => ¬ i < n / 2)).length := by omega
  refine ⟨interleave (perm.filter (fun i => i < n / 2))
      (perm.filter (fun i => ¬ i < n / 2)), ?_, ?_, ?_⟩
  · simp only [get_balanced_distribution_indices, hlen, if_pos]
  · exact ((interleave_perm_append hlen).trans (half_filter_append_perm _ perm)).trans hp
  · rw [interleave_length hlen]; omega

/-- Gathering a list at the full index range reproduces the list. -/
theorem map_getD_range {α : Type} (l : List α) (d : α) :
    (List.range l.length).map (fun i => l.getD i d) = l := by
  induction l with
  | nil => simp
  | cons a t ih =>
    rw [List.length_cons, List.range_succ_eq_map, List.map_cons, List.map_map]
    simp only [List.getD_cons_zero, List.cons.injEq, true_and]
    calc (List.range t.length).map ((fun i => (a :: t).getD i d) ∘ Nat.succ)
        = (List.range t.length).map (fun i => t.getD i d) := by
          refine List.map_congr_left ?_
          intro x _
          simp [Function.comp, List.getD_cons_succ]
      _ = t := ih

/-- Gathering a list along a permutation of its index range permutes it. -/
theorem map_getD_perm {α : Type} {l : List α} {idx : List ℕ} (d : α)
    (h : idx.Perm (List.range l.length)) :
    (idx.map (fun i => l.getD i d)).Perm l := by
  have := h.map (fun i => l.getD i d)
  rw [map_getD_range l d] at this
  exact this

/-! ### `split` (Component D, `bspytasks/ring/data.py` lines 144-163) -/

/-- Python slice-bound normalization: a negative bound counts from the end
(clamped at 0), a non-negative bound is clamped at the length. -/
def pyBound (len : ℕ) (i : ℤ) : ℕ :=
  if i < 0 then (i + len).toNat else min i.toNat len

/-- Python slice `l[a:b]`. -/
def pySlice {α : Type} (l : List α) (a b : ℤ) : List α :=
  (l.take (pyBound l.length b)).drop (pyBound l.length a)

/-- `split(dataset, batch_size, num_workers, sampler, split_percentages, pin_memory)`
(lines 144-163), restricted to its index partitioning: the assert
`np.sum(percentages) == 1`, the `balanced_permutation(len(dataset))` call
(whose `torch.randperm` draw is the `randperm` argument), the three
cumulative bounds `int(np.floor(...))`, and the slices `indices[:max_train_index]`,
`indices[max_train_index:max_dev_index]`, `indices[max_dev_index:max_test_index]`.
Wrapping the three index lists in samplers and `DataLoader`s adds no further
logic on the indices.  (The line `indices = list(range(len(dataset)))` is dead:
it is immediately overwritten by the `balanced_permutation` result.) -/
def split (dataset_len : ℕ) (randperm : List ℕ) (split_percentages : List ℚ) :
    Option (List ℕ × List ℕ × List ℕ) :=
  if split_percentages.sum = 1 then
    match balanced_permutation randperm with
    | some indices =>
      let max_train_index : ℤ := ⌊split_percentages.getD 0 0 * (dataset_len : ℚ)⌋
      let max_dev_index : ℤ :=
        ⌊(split_percentages.getD 0 0 + split_percentages.getD 1 0) * (dataset_len : ℚ)⌋
      let max_test_index : ℤ := ⌊split_percentages.sum * (dataset_len : ℚ)⌋
      some (pySlice indices 0 max_train_index,
            pySlice indices max_train_index max_dev_index,
            pySlice indices max_dev_index max_test_index)
    | none => none
  else none

theorem pyBound_natCast (len a : ℕ) : pyBound len (a : ℤ) = min a len := by
  unfold pyBound
  rw [if_neg (by omega), Int.toNat_natCast]

theorem pySlice_natCast {α : Type} (l : List α) (a b : ℕ) :
    pySlice l (a : ℤ) (b : ℤ) = (l.take (min b l.length)).drop (min a l.length) := by
  unfold pySlice
  rw [pyBound_natCast, pyBound_natCast]

/-- C2: for every even `n`, `balanced_permutation` succeeds on any permutation
of `[0, n)` and returns a bijection on `[0, n)` whose entries at even positions
are even-valued and at odd positions odd-valued, so consecutive pairs always
come from the two distinct parity groups. -/
theorem c2_balanced_permutation_interleaves (n : ℕ) (perm : List ℕ)
    (hn : n % 2 = 0) (hp : perm.Perm (List.range n)) :
    ∃ result, balanced_permutation perm = some result ∧
      result.Perm (List.range n) ∧ result.length = n ∧
      ∀ i, i < n / 2 →
        (result.getD (2 * i) 0) % 2 = 0 ∧
        (result.getD (2 * i + 1) 0) % 2 = 1 ∧
        (result.getD (2 * i) 0) % 2 ≠ (result.getD (2 * i + 1) 0) % 2 := by
  obtain ⟨r, h1, h2, h3, h4⟩ := balanced_permutation_some hn hp
  refine ⟨r, h1, h2, h3, fun i hi => ⟨(h4 i hi).1, (h4 i hi).2, ?_⟩⟩
  rw [(h4 i hi).1, (h4 i hi).2]
  omega

theorem c2_witness :
    ∃ result, balanced_permutation [1, 0] = some result ∧
      result.Perm (List.range 2) ∧ result.length = 2 ∧
      ∀ i, i < 2 / 2 →
        (result.getD (2 * i) 0) % 2 = 0 ∧
        (result.getD (2 * i + 1) 0) % 2 = 1 ∧
        (result.getD (2 * i) 0) % 2 ≠ (result.getD (2 * i + 1) 0) % 2 :=
  c2_balanced_permutation_interleaves 2 [1, 0] (by decide) (by decide)

/-- C3: on a permutation of `[0, n)`, `balanced_permutation` hits its
equal-group-size assert exactly when `n` is odd; for even `n` the error
branch is unreachable. -/
theorem c3_balanced_permutation_fails_iff_odd (n : ℕ) (perm : List ℕ)
    (hp : perm.Perm (List.range n)) :
    balanced_permutation perm = none ↔ n % 2 = 1 := by
  constructor
  · intro h
    by_contra hodd
    have hn : n % 2 = 0 := by omega
    obtain ⟨r, h1, -, -, -⟩ := balanced_permutation_some hn hp
    rw [h1] at h
    cases h
  · intro h
    exact balanced_permutation_none h hp

theorem c3_witness : balanced_permutation [0] = none ↔ 1 % 2 = 1 :=
  c3_balanced_permutation_fails_iff_odd 1 [0] (by decide)

/-- C10: for a dataset of odd length, `split` fails for every choice of split
fractions: either the fraction-sum assert fires, or the balanced permutation
over the (odd) dataset length hits its equal-group-size assert. -/
theorem c10_split_odd_length_fails (n : ℕ) (perm : List ℕ) (p : List ℚ)
    (hn : n % 2 = 1) (hp : perm.Perm (List.range n)) :
    split n perm p = none := by
  unfold split
  by_cases hs : p.sum = 1
  · rw [if_pos hs, balanced_permutation_none hn hp]
  · rw [if_neg hs]

theorem c10_witness : split 1 [0] [(4 : ℚ)/5, 1/10, 1/10] = none :=
  c10_split_odd_length_fails 1 [0] [(4 : ℚ)/5, 1/10, 1/10] (by decide) (by decide)

/-- C5 counterexample: the default fractions sum to exactly 1, yet `split`
still fails (with a precondition violation inside `balanced_permutation`)
on a dataset of length 1, so "split fails iff the fractions do not sum
to 1" is false as stated. -/
theorem c5_counterexample :
    ([(4 : ℚ)/5, 1/10, 1/10]).sum = 1 ∧
      split 1 [0] [(4 : ℚ)/5, 1/10, 1/10] = none := by
  constructor
  · norm_num
  · unfold split
    rw [if_pos (by norm_num)]
    rfl

/-- C5 amended: the fraction-sum precondition check of `split` fails exactly
when the fractions do not sum to 1; whenever they do sum to 1 that check
passes (in particular for the defaults `[0.8, 0.1, 0.1]`), and `split` as a
whole then succeeds provided the dataset length is even — though it can still
fail on odd dataset lengths, which the split contract does not mention. -/
theorem c5_split_fraction_check (n : ℕ) (perm : List ℕ) (p : List ℚ) :
    (p.sum ≠ 1 → split n perm p = none) ∧
    (p.sum = 1 → p.length = 3 → n % 2 = 0 → perm.Perm (List.range n) →
      ∃ result, split n perm p = some result) := by
  constructor
  · intro h
    unfold split
    rw [if_neg h]
  · intro hs hlen hn hp
    obtain ⟨indices, h1, -, -, -⟩ := balanced_permutation_some hn hp
    refine ⟨(pySlice indices 0 ⌊p.getD 0 0 * (n : ℚ)⌋,
        pySlice indices ⌊p.getD 0 0 * (n : ℚ)⌋ ⌊(p.getD 0 0 + p.getD 1 0) * (n : ℚ)⌋,
        pySlice indices ⌊(p.getD 0 0 + p.getD 1 0) * (n : ℚ)⌋ ⌊p.sum * (n : ℚ)⌋), ?_⟩
    unfold split
    rw [if_pos hs, h1]

theorem c5_witness :
    (split 2 [0, 1] [(1 : ℚ)/2] = none) ∧
    (∃ result, split 2 [0, 1] [(4 : ℚ)/5, 1/10, 1/10] = some result) :=
  ⟨(c5_split_fraction_check 2 [0, 1] [(1 : ℚ)/2]).1 (by norm_num),
   (c5_split_fraction_check 2 [0, 1] [(4 : ℚ)/5, 1/10, 1/10]).2
     (by norm_num) (by decide) (by decide) (by decide)⟩

/-- C4: with the default fractions `[0.8, 0.1, 0.1]` on a dataset of length
100, `split` produces index partitions of lengths 80 / 10 / 10 that are
pairwise disjoint and together cover the full index range `[0, 100)`. -/
theorem c4_split_default_partition (perm : List ℕ)
    (hp : perm.Perm (List.range 100)) :
    ∃ tr dv te, split 100 perm [(4 : ℚ)/5, 1/10, 1/10] = some (tr, dv, te) ∧
      tr.length = 80 ∧ dv.length = 10 ∧ te.length = 10 ∧
      (tr ++ dv ++ te).Perm (List.range 100) ∧
      tr.Disjoint dv ∧ tr.Disjoint te ∧ dv.Disjoint te := by
  obtain ⟨indices, h1, hip, hil, -⟩ := balanced_permutation_some (by norm_num) hp
  have e : split 100 perm [(4 : ℚ)/5, 1/10, 1/10] =
      some (pySlice indices 0 80, pySlice indices 80 90, pySlice indices 90 100) := by
    unfold split
    rw [if_pos (by norm_num), h1]
    norm_num
  have hb0 : pyBound indices.length 0 = 0 := by rw [hil]; decide
  have hb80 : pyBound indices.length 80 = 80 := by rw [hil]; decide
  have hb90 : pyBound indices.length 90 = 90 := by rw [hil]; decide
  have hb100 : pyBound indices.length 100 = 100 := by rw [hil]; decide
  have htr : pySlice indices 0 80 = indices.take 80 := by
    unfold pySlice
    rw [hb80, hb0, List.drop_zero]
  have hdv : pySlice indices 80 90 = (indices.take 90).drop 80 := by
    unfold pySlice
    rw [hb90, hb80]
  have hte : pySlice indices 90 100 = indices.drop 90 := by
    unfold pySlice
    rw [hb100, hb90, List.take_of_length_le (by omega)]
  have heq : indices.take 80 ++ ((indices.take 90).drop 80 ++ indices.drop 90) =
      indices := by
    have t1 : indices.take 80 = (indices.take 90).take 80 := by
      rw [List.take_take]
      norm_num
    rw [t1, ← List.append_assoc, List.take_append_drop, List.take_append_drop]
  have hnd : (indices.take 80 ++ ((indices.take 90).drop 80 ++ indices.drop 90)).Nodup := by
    rw [heq]
    exact hip.nodup_iff.mpr (List.nodup_range 100)
  obtain ⟨-, hnd2, hdisj1⟩ := List.nodup_append.mp hnd
  obtain ⟨-, -, hdisj23⟩ := List.nodup_append.mp hnd2
  rw [List.disjoint_append_right] at hdisj1
  refine ⟨_, _, _, e, ?_, ?_, ?_, ?_, ?_, ?_, ?_⟩
  · rw [htr, List.length_take, hil]
    norm_num
  · rw [hdv, List.length_drop, List.length_take, hil]
    norm_num
  · rw [hte, List.length_drop, hil]
  · rw [htr, hdv, hte, List.append_assoc, heq]
    exact hip
  · rw [htr, hdv]
    exact hdisj1.1
  · rw [htr, hte]
    exact hdisj1.2
  · rw [hdv, hte]
    exact hdisj23

theorem c4_witness :
    ∃ tr dv te,
      split 100 (List.range 100) [(4 : ℚ)/5, 1/10, 1/10] = some (tr, dv, te) ∧
      tr.length = 80 ∧ dv.length = 10 ∧ te.length = 10 ∧
      (tr ++ dv ++ te).Perm (List.range 100) ∧
      tr.Disjoint dv ∧ tr.Disjoint te ∧ dv.Disjoint te :=
  c4_split_default_partition (List.range 100) (List.Perm.refl _)

/-! ### `RingDatasetGenerator` (Component B, `bspytasks/ring/data.py` lines 14-92) -/

/-- `np.random.uniform(low, high)` for a single entry, with the unit draw `u`
made explicit: `low + (high - low) * u`.  (numpy accepts `low > high` and
produces exactly this value, and for `low == high` the draw is ignored.) -/
def np_uniform (low high u : ℝ) : ℝ := low + (high - low) * u

/-- `RingDatasetGenerator.get_class_points(sample_no, in_limit, out_limit)`
(lines 64-79): `linspace_out` and `linspace_in` are the same grid
`2 * pi * i / sample_no` for `i < sample_no` (`endpoint=False`); the inner and
outer circle coordinates at each grid angle bound the per-coordinate uniform
draws `u i` (for x) and `v i` (for y). -/
noncomputable def get_class_points (sample_no : ℕ) (in_limit out_limit : ℝ)
    (u v : ℕ → ℝ) : List (ℝ × ℝ) :=
  (List.range sample_no).map fun (i : ℕ) =>
    let angle : ℝ := 2 * Real.pi * (i : ℝ) / (sample_no : ℝ)
    (np_uniform (Real.cos angle * in_limit) (Real.cos angle * out_limit) (u i),
     np_uniform (Real.sin angle * in_limit) (Real.sin angle * out_limit) (v i))

/-- `RingDatasetGenerator.generate_data(sample_no, gap)` (lines 46-62):
the even-sample assert, the balanced distribution indices over the
`np.random.permutation` draw `randperm`, `limit = (1 - gap) / 2`, the class-0
call `get_class_points(sample_no, 0, limit)` (with unit draws `u0`, `v0`),
the class-1 call `get_class_points(sample_no, 1 - limit, 1)` (draws `u1`,
`v1`), the stacked points/targets, and the final fancy-indexing by
`indices`. -/
noncomputable def generate_data (sample_no : ℕ) (gap : ℚ) (randperm : List ℕ)
    (u0 v0 u1 v1 : ℕ → ℝ) : Option (List (ℝ × ℝ) × List ℚ) :=
  if sample_no % 2 = 0 then
    match get_balanced_distribution_indices sample_no randperm with
    | some indices =>
      let half := sample_no / 2
      let limit : ℝ := (1 - (gap : ℝ)) / 2
      let class0_points := get_class_points half 0 limit u0 v0
      let class0_targets : List ℚ := List.replicate half 0
      let class1_points := get_class_points half (1 - limit) 1 u1 v1
      let class1_targets : List ℚ := List.replicate half 1
      let points := class0_points ++ class1_points
      let targets := class0_targets ++ class1_targets
      some (indices.map (fun i => points.getD i (0, 0)),
            indices.map (fun i => targets.getD i 0))
    | none => none
  else none

/-- Full evaluation of `generate_data` at sample count 2, gap 1/2, the
identity permutation draw and all-zero unit draws: the class-0 point is
`(0, 0)` (the draw interval at angle 0 is `[0, cos 0 * limit]` and the unit
draw is 0) and the class-1 point is `(3/4, 0)`. -/
theorem generate_data_half_gap_eval :
    generate_data 2 (1/2) [0, 1] (fun _ => 0) (fun _ => 0) (fun _ => 0) (fun _ => 0) =
      some ([((0 : ℝ), (0 : ℝ)), ((3/4 : ℝ), (0 : ℝ))], [(0 : ℚ), 1]) := by
  have hg : get_balanced_distribution_indices 2 [0, 1] = some [0, 1] := by decide
  unfold generate_data
  rw [if_pos (by norm_num), hg]
  simp only [get_class_points, List.range_succ, List.range_zero, List.map_cons,
    List.map_nil]
  norm_num [np_uniform, List.getD_cons_zero, List.getD_cons_succ,
    Real.cos_zero, Real.sin_zero]

/-- C1: on any permutation draw over `[0, n)` and any gap in `(0, 1)`,
`generate_data` with an even sample count `n` returns exactly `n` rows with
exactly `n/2` targets equal to 0 and `n/2` equal to 1; with an odd sample
count it fails its even-sample assert. -/
theorem c1_generate_data_counts (n : ℕ) (gap : ℚ) (randperm : List ℕ)
    (u0 v0 u1 v1 : ℕ → ℝ) (_hgap0 : 0 < gap) (_hgap1 : gap < 1)
    (hp : randperm.Perm (List.range n)) :
    (n % 2 = 0 → ∃ pts tgts,
      generate_data n gap randperm u0 v0 u1 v1 = some (pts, tgts) ∧
      pts.length = n ∧ tgts.length = n ∧
      tgts.count 0 = n / 2 ∧ tgts.count 1 = n / 2) ∧
    (n % 2 = 1 → generate_data n gap randperm u0 v0 u1 v1 = none) := by
  constructor
  · intro hn
    obtain ⟨indices, h1, hip, hil⟩ := get_balanced_distribution_indices_some hn hp
    have e : generate_data n gap randperm u0 v0 u1 v1 =
        some (indices.map (fun i =>
            (get_class_points (n / 2) 0 ((1 - (gap : ℝ)) / 2) u0 v0 ++
              get_class_points (n / 2) (1 - (1 - (gap : ℝ)) / 2) 1 u1 v1).getD i (0, 0)),
          indices.map (fun i =>
            (List.replicate (n / 2) (0 : ℚ) ++ List.replicate (n / 2) (1 : ℚ)).getD i 0)) := by
      unfold generate_data
      rw [if_pos hn, h1]
    have hlen_t :
        (List.replicate (n / 2) (0 : ℚ) ++ List.replicate (n / 2) (1 : ℚ)).length = n := by
      simp only [List.length_append, List.length_replicate]
      omega
    have ht : (indices.map (fun i =>
        (List.replicate (n / 2) (0 : ℚ) ++ List.replicate (n / 2) (1 : ℚ)).getD i 0)).Perm
        (List.replicate (n / 2) (0 : ℚ) ++ List.replicate (n / 2) (1 : ℚ)) := by
      apply map_getD_perm
      rw [hlen_t]
      exact hip
    refine ⟨_, _, e, ?_, ?_, ?_, ?_⟩
    · rw [List.length_map, hil]
    · rw [List.length_map, hil]
    · rw [ht.count_eq]
      simp only [List.count_append, List.count_replicate]
      norm_num
    · rw [ht.count_eq]
      simp only [List.count_append, List.count_replicate]
      norm_num
  · intro hn
    unfold generate_data
    rw [if_neg (by omega)]

theorem c1_witness :
    ((2 : ℕ) % 2 = 0 → ∃ pts tgts,
      generate_data 2 (1/2) [0, 1] (fun _ => 0) (fun _ => 0) (fun _ => 0) (fun _ => 0) =
        some (pts, tgts) ∧
      pts.length = 2 ∧ tgts.length = 2 ∧
      tgts.count 0 = 2 / 2 ∧ tgts.count 1 = 2 / 2) ∧
    ((2 : ℕ) % 2 = 1 →
      generate_data 2 (1/2) [0, 1] (fun _ => 0) (fun _ => 0) (fun _ => 0) (fun _ => 0) =
        none) :=
  c1_generate_data_counts 2 (1/2) [0, 1] (fun _ => 0) (fun _ => 0) (fun _ => 0)
    (fun _ => 0) (by norm_num) (by norm_num) (by decide)

/-- Closed form of the `i`-th point generated by `get_class_points`. -/
theorem get_class_points_getD (sample_no : ℕ) (in_limit out_limit : ℝ)
    (u v : ℕ → ℝ) (i : ℕ) (hi : i < sample_no) (d : ℝ × ℝ) :
    (get_class_points sample_no in_limit out_limit u v).getD i d =
      (np_uniform (Real.cos (2 * Real.pi * (i : ℝ) / (sample_no : ℝ)) * in_limit)
        (Real.cos (2 * Real.pi * (i : ℝ) / (sample_no : ℝ)) * out_limit) (u i),
       np_uniform (Real.sin (2 * Real.pi * (i : ℝ) / (sample_no : ℝ)) * in_limit)
        (Real.sin (2 * Real.pi * (i : ℝ) / (sample_no : ℝ)) * out_limit) (v i)) := by
  have hlen : i < (get_class_points sample_no in_limit out_limit u v).length := by
    simpa [get_class_points] using hi
  rw [List.getD_eq_getElem _ _ hlen]
  simp [get_class_points]

/-- C8 counterexample: `generate_data` calls `get_class_points(sample_no, 0,
limit)` for class 0, so the inner sampling bound is the radius-0 circle, not
the radius-`limit` circle.  At sample count 2, gap 1/2 (`limit = 1/4`) and
all-zero unit draws, the class-0 row of the output (its target is 0) is the
point `(0, 0)`, which does not lie on the circle of radius `limit`. -/
theorem c8_counterexample :
    ∃ pts tgts,
      generate_data 2 (1/2) [0, 1] (fun _ => 0) (fun _ => 0) (fun _ => 0) (fun _ => 0) =
        some (pts, tgts) ∧
      tgts.getD 0 37 = 0 ∧
      (pts.getD 0 (37, 37)).1 ^ 2 + (pts.getD 0 (37, 37)).2 ^ 2 ≠
        ((1 - ((1/2 : ℚ) : ℝ)) / 2) ^ 2 :=
  ⟨_, _, generate_data_half_gap_eval, by simp, by norm_num⟩

/-- C8 amended: each class-0 point of Component B is sampled per coordinate
between 0 (the radius-0 inner circle) and the radius-`limit` circle coordinate
at its grid angle: its coordinates are `cos(angle) * limit * u` and
`sin(angle) * limit * v` for unit draws `u`, `v`.  For draws in `[0, 1]` and
`gap ≤ 1` the point therefore lies within the closed disk of radius
`limit = (1 - gap)/2` — not exactly on that circle. -/
theorem c8_class0_points_in_disk (n : ℕ) (gap : ℚ) (u v : ℕ → ℝ) (i : ℕ)
    (hi : i < n) (hu0 : 0 ≤ u i) (hu1 : u i ≤ 1) (hv0 : 0 ≤ v i) (hv1 : v i ≤ 1)
    (hgap : gap ≤ 1) :
    ((get_class_points n 0 ((1 - (gap : ℝ)) / 2) u v).getD i (0, 0)).1 =
      Real.cos (2 * Real.pi * (i : ℝ) / (n : ℝ)) * ((1 - (gap : ℝ)) / 2) * u i ∧
    ((get_class_points n 0 ((1 - (gap : ℝ)) / 2) u v).getD i (0, 0)).2 =
      Real.sin (2 * Real.pi * (i : ℝ) / (n : ℝ)) * ((1 - (gap : ℝ)) / 2) * v i ∧
    ((get_class_points n 0 ((1 - (gap : ℝ)) / 2) u v).getD i (0, 0)).1 ^ 2 +
      ((get_class_points n 0 ((1 - (gap : ℝ)) / 2) u v).getD i (0, 0)).2 ^ 2 ≤
      ((1 - (gap : ℝ)) / 2) ^ 2 := by
  have ep := get_class_points_getD n 0 ((1 - (gap : ℝ)) / 2) u v i hi (0, 0)
  rw [ep]
  have e1 : np_uniform (Real.cos (2 * Real.pi * (i : ℝ) / (n : ℝ)) * 0)
      (Real.cos (2 * Real.pi * (i : ℝ) / (n : ℝ)) * ((1 - (gap : ℝ)) / 2)) (u i) =
      Real.cos (2 * Real.pi * (i : ℝ) / (n : ℝ)) * ((1 - (gap : ℝ)) / 2) * u i := by
    unfold np_uniform
    ring
  have e2 : np_uniform (Real.sin (2 * Real.pi * (i : ℝ) / (n : ℝ)) * 0)
      (Real.sin (2 * Real.pi * (i : ℝ) / (n : ℝ)) * ((1 - (gap : ℝ)) / 2)) (v i) =
      Real.sin (2 * Real.pi * (i : ℝ) / (n : ℝ)) * ((1 - (gap : ℝ)) / 2) * v i := by
    unfold np_uniform
    ring
  rw [e1, e2]
  refine ⟨rfl, rfl, ?_⟩
  have hL : (0 : ℝ) ≤ (1 - (gap : ℝ)) / 2 := by
    have : (gap : ℝ) ≤ 1 := by exact_mod_cast hgap
    linarith
  have hpyth := Real.sin_sq_add_cos_sq (2 * Real.pi * (i : ℝ) / (n : ℝ))
  have hu2 : u i ^ 2 ≤ 1 := by nlinarith
  have hv2 : v i ^ 2 ≤ 1 := by nlinarith
  have hu2' : (0 : ℝ) ≤ 1 - u i ^ 2 := by linarith
  have hv2' : (0 : ℝ) ≤ 1 - v i ^ 2 := by linarith
  have hA : 0 ≤ ((1 - (gap : ℝ)) / 2) ^ 2 *
      Real.cos (2 * Real.pi * (i : ℝ) / (n : ℝ)) ^ 2 * (1 - u i ^ 2) :=
    mul_nonneg (mul_nonneg (sq_nonneg _) (sq_nonneg _)) hu2'
  have hB : 0 ≤ ((1 - (gap : ℝ)) / 2) ^ 2 *
      Real.sin (2 * Real.pi * (i : ℝ) / (n : ℝ)) ^ 2 * (1 - v i ^ 2) :=
    mul_nonneg (mul_nonneg (sq_nonneg _) (sq_nonneg _)) hv2'
  nlinarith [hA, hB, hpyth, sq_nonneg ((1 - (gap : ℝ)) / 2)]

theorem c8_witness :
    ((get_class_points 1 0 ((1 - ((1/2 : ℚ) : ℝ)) / 2) (fun _ => 1/2)
        (fun _ => 1/2)).getD 0 (0, 0)).1 =
      Real.cos (2 * Real.pi * ((0 : ℕ) : ℝ) / ((1 : ℕ) : ℝ)) *
        ((1 - ((1/2 : ℚ) : ℝ)) / 2) * (1/2) ∧
    ((get_class_points 1 0 ((1 - ((1/2 : ℚ) : ℝ)) / 2) (fun _ => 1/2)
        (fun _ => 1/2)).getD 0 (0, 0)).2 =
      Real.sin (2 * Real.pi * ((0 : ℕ) : ℝ) / ((1 : ℕ) : ℝ)) *
        ((1 - ((1/2 : ℚ) : ℝ)) / 2) * (1/2) ∧
    ((get_class_points 1 0 ((1 - ((1/2 : ℚ) : ℝ)) / 2) (fun _ => 1/2)
        (fun _ => 1/2)).getD 0 (0, 0)).1 ^ 2 +
      ((get_class_points 1 0 ((1 - ((1/2 : ℚ) : ℝ)) / 2) (fun _ => 1/2)
        (fun _ => 1/2)).getD 0 (0, 0)).2 ^ 2 ≤
      ((1 - ((1/2 : ℚ) : ℝ)) / 2) ^ 2 :=
  c8_class0_points_in_disk 1 (1/2) (fun _ => 1/2) (fun _ => 1/2) 0
    (by norm_num) (by norm_num) (by norm_num) (by norm_num) (by norm_num)
    (by norm_num)

/-! ### Persistence round-trip (`np.savez` in `RingDatasetGenerator.__init__`,
`np.load` in `RingDatasetLoader.__init__`) -/

/-- The persisted archive: the named arrays `inputs` and `targets` and the
`gap` scalar written by `np.savez` (lines 26-32). -/
structure RingArchive where
  gap : ℚ
  inputs : List (ℝ × ℝ)
  targets : List ℚ

/-- The `np.savez(..., gap=gap, inputs=self.inputs, targets=self.targets)`
step of `RingDatasetGenerator.__init__`. -/
def save_dataset (gap : ℚ) (inputs : List (ℝ × ℝ)) (targets : List ℚ) :
    RingArchive :=
  ⟨gap, inputs, targets⟩

/-- `RingDatasetLoader.__init__` (lines 95-111): reads back the named arrays
`inputs`, `targets` and the `gap` scalar, asserting
`len(inputs) == len(targets)`. -/
def load_dataset (archive : RingArchive) : Option (List (ℝ × ℝ) × List ℚ × ℚ) :=
  if archive.inputs.length = archive.targets.length then
    some (archive.inputs, archive.targets, archive.gap)
  else none

/-- C9: persisting any dataset produced by Component B's `generate_data`
(whose inputs and targets always have equal length) and loading it back
yields exactly the persisted `inputs`, `targets` and `gap`. -/
theorem c9_round_trip (n : ℕ) (gap : ℚ) (randperm : List ℕ)
    (u0 v0 u1 v1 : ℕ → ℝ) (pts : List (ℝ × ℝ)) (tgts : List ℚ)
    (h : generate_data n gap randperm u0 v0 u1 v1 = some (pts, tgts)) :
    load_dataset (save_dataset gap pts tgts) = some (pts, tgts, gap) := by
  have hlen : pts.length = tgts.length := by
    unfold generate_data at h
    by_cases hn : n % 2 = 0
    · rw [if_pos hn] at h
      cases hg : get_balanced_distribution_indices n randperm with
      | none => rw [hg] at h; cases h
      | some indices =>
        rw [hg] at h
        have h' := Option.some.inj h
        rw [Prod.mk.injEq] at h'
        obtain ⟨h1, h2⟩ := h'
        rw [← h1, ← h2, List.length_map, List.length_map]
    · rw [if_neg hn] at h
      cases h
  unfold load_dataset save_dataset
  rw [if_pos hlen]

theorem c9_witness :
    load_dataset (save_dataset (1/2) [((0 : ℝ), (0 : ℝ)), ((3/4 : ℝ), (0 : ℝ))]
        [(0 : ℚ), 1]) =
      some ([((0 : ℝ), (0 : ℝ)), ((3/4 : ℝ), (0 : ℝ))], [(0 : ℚ), 1], 1/2) :=
  c9_round_trip 2 (1/2) [0, 1] (fun _ => 0) (fun _ => 0) (fun _ => 0) (fun _ => 0)
    _ _ generate_data_half_gap_eval

/-! ### `RingDataGenerator` (Component A, `bspytasks/datasets/ring.py`) -/

/-- Label values of Component A's `ring`.  numpy's `np.empty` leaves entries
uninitialized; `uninit` models an entry never written by any of the four
masked assignments (possible only at exact boundary radii).  `nan` models the
`np.nan` discard sentinel. -/
inductive RLabel where
  | zero
  | one
  | nan
  | uninit
deriving DecidableEq

/-- `np.sqrt(np.sum(samples ** 2, axis=1))` for a single sample. -/
noncomputable def np_norm (p : ℚ × ℚ) : ℝ :=
  Real.sqrt ((p.1 : ℝ) ^ 2 + (p.2 : ℝ) ^ 2)

open Classical in
/-- The four masked label assignments of `RingDataGenerator.ring`
(lines 59-63), applied per point in source order on an uninitialized entry:
`labels[norm < inner_radius] = 0`;
`labels[(norm < outer_radius) * (norm > inner_radius + gap)] = 1`;
`labels[norm > outer_radius] = nan`;
`labels[(norm > inner_radius) * (norm < inner_radius + gap)] = nan`. -/
noncomputable def ring_label (inner_radius gap outer_radius : ℚ) (p : ℚ × ℚ) : RLabel :=
  let nrm := np_norm p
  let l1 := if nrm < (inner_radius : ℝ) then RLabel.zero else RLabel.uninit
  let l2 := if nrm < (outer_radius : ℝ) ∧ (inner_radius : ℝ) + (gap : ℝ) < nrm then
    RLabel.one else l1
  let l3 := if (outer_radius : ℝ) < nrm then RLabel.nan else l2
  if (inner_radius : ℝ) < nrm ∧ nrm < (inner_radius : ℝ) + (gap : ℝ) then RLabel.nan
  else l3

open Classical in
/-- `RingDataGenerator.ring(sample_no, inner_radius, gap, outer_radius)`
(lines 51-65): asserts `outer_radius <= 1`, maps the unit-square draws `rand`
(one pair of `np.random.rand` draws per requested sample) to
`[-outer_radius, outer_radius]^2` and labels every sample. -/
noncomputable def ring (rand : List (ℚ × ℚ)) (inner_radius gap outer_radius : ℚ) :
    Option (List (ℚ × ℚ) × List RLabel) :=
  if outer_radius ≤ 1 then
    let samples := rand.map (fun r =>
      (-1 * outer_radius + 2 * outer_radius * r.1,
       -1 * outer_radius + 2 * outer_radius * r.2))
    some (samples, samples.map (ring_label inner_radius gap outer_radius))
  else none

/-- `RingDataGenerator.subsample(class0, class1)` (lines 67-76): truncate the
`np.random.permutation(max_array)` draw (`randperm`) to the smaller class
size and fancy-index the larger class with it. -/
def subsample (class0 class1 : List (ℚ × ℚ)) (randperm : List ℕ) :
    List (ℚ × ℚ) × List (ℚ × ℚ) :=
  let nr_samples := min class0.length class1.length
  let max_array := max class0.length class1.length
  let indices := randperm.take nr_samples
  if class0.length = max_array then
    (indices.map (fun i => class0.getD i (0, 0)), class1)
  else
    (class0, indices.map (fun i => class1.getD i (0, 0)))

/-- `RingDataGenerator.sort(class0, class1)` (lines 78-82): each class is
rearranged in ascending x-coordinate order
(`np.argsort(classK, axis=0)[:, 0]` followed by fancy indexing). -/
def sort (class0 class1 : List (ℚ × ℚ)) : List (ℚ × ℚ) × List (ℚ × ℚ) :=
  (class0.mergeSort (fun p q => p.1 ≤ q.1), class1.mergeSort (fun p q => p.1 ≤ q.1))

/-- `RingDataGenerator.filter_and_reverse(class0, class1)` (lines 84-98). -/
def filter_and_reverse (class0 class1 : List (ℚ × ℚ)) :
    List (ℚ × ℚ) × List ℚ :=
  let class0_positive_y := class0.filter (fun p => 0 ≤ p.2)
  let class0_negative_y := (class0.filter (fun p => p.2 < 0)).reverse
  let class1_positive_y := class1.filter (fun p => 0 ≤ p.2)
  let class1_negative_y := (class1.filter (fun p => p.2 < 0)).reverse
  let class0' := class0_positive_y ++ class0_negative_y
  let class1' := class1_positive_y ++ class1_negative_y
  (class0' ++ class1',
   List.replicate class0'.length (0 : ℚ) ++ List.replicate class1'.length (1 : ℚ))

/-- `RingDataGenerator.process_dataset(class0, class1)` (lines 100-104). -/
def process_dataset (class0 class1 : List (ℚ × ℚ)) (randperm : List ℕ) :
    List (ℚ × ℚ) × List ℚ :=
  let sub := subsample class0 class1 randperm
  let srt := sort sub.1 sub.2
  filter_and_reverse srt.1 srt.2

/-! #### Label inversion lemmas -/

theorem ring_label_zero_norm {inner_radius gap outer_radius : ℚ} {p : ℚ × ℚ}
    (h : ring_label inner_radius gap outer_radius p = RLabel.zero) :
    np_norm p < (inner_radius : ℝ) := by
  simp only [ring_label] at h
  split_ifs at h
  all_goals simp_all

theorem ring_label_one_bounds {inner_radius gap outer_radius : ℚ} {p : ℚ × ℚ}
    (h : ring_label inner_radius gap outer_radius p = RLabel.one) :
    np_norm p < (outer_radius : ℝ) ∧ (inner_radius : ℝ) + (gap : ℝ) < np_norm p := by
  simp only [ring_label] at h
  split_ifs at h
  all_goals simp_all

/-! #### Length and count bookkeeping for the post-processing pipeline -/

theorem reorder_perm (c : List (ℚ × ℚ)) :
    (c.filter (fun p => (0 : ℚ) ≤ p.2) ++ (c.filter (fun p => p.2 < 0)).reverse).Perm
      c := by
  have hrev : ((c.filter (fun p => p.2 < 0)).reverse).Perm
      (c.filter (fun p => p.2 < 0)) := List.reverse_perm _
  refine (hrev.append_left (c.filter (fun p => (0 : ℚ) ≤ p.2))).trans ?_
  have hcongr : c.filter (fun p => p.2 < 0) =
      c.filter (fun p => !(decide ((0 : ℚ) ≤ p.2))) := by
    refine List.filter_congr ?_
    intro x _
    by_cases h : (0 : ℚ) ≤ x.2 <;> simp [h, not_le]
    linarith
  rw [hcongr]
  exact List.filter_append_perm _ c

theorem subsample_lengths (class0 class1 : List (ℚ × ℚ)) (randperm : List ℕ)
    (hp : randperm.Perm (List.range (max class0.length class1.length))) :
    (subsample class0 class1 randperm).1.length = min class0.length class1.length ∧
    (subsample class0 class1 randperm).2.length = min class0.length class1.length := by
  have hlen : randperm.length = max class0.length class1.length := by
    rw [hp.length_eq, List.length_range]
  unfold subsample
  by_cases h : class0.length = max class0.length class1.length
  · rw [if_pos h]
    refine ⟨?_, ?_⟩
    · show (List.map _ (randperm.take (min class0.length class1.length))).length = _
      rw [List.length_map, List.length_take, hlen]
      omega
    · show class1.length = min class0.length class1.length
      omega
  · rw [if_neg h]
    refine ⟨?_, ?_⟩
    · show class0.length = min class0.length class1.length
      omega
    · show (List.map _ (randperm.take (min class0.length class1.length))).length = _
      rw [List.length_map, List.length_take, hlen]
      omega

theorem filter_and_reverse_counts (a b : List (ℚ × ℚ)) :
    (filter_and_reverse a b).2.count 0 = a.length ∧
    (filter_and_reverse a b).2.count 1 = b.length := by
  simp only [filter_and_reverse]
  rw [(reorder_perm a).length_eq, (reorder_perm b).length_eq]
  constructor <;> · simp [List.count_append, List.count_replicate]

theorem process_dataset_counts_eq (class0 class1 : List (ℚ × ℚ)) (randperm : List ℕ)
    (hp : randperm.Perm (List.range (max class0.length class1.length))) :
    (process_dataset class0 class1 randperm).2.count 0 =
      (process_dataset class0 class1 randperm).2.count 1 := by
  obtain ⟨hs1, hs2⟩ := subsample_lengths class0 class1 randperm hp
  unfold process_dataset
  obtain ⟨hc0, hc1⟩ := filter_and_reverse_counts
    (sort (subsample class0 class1 randperm).1 (subsample class0 class1 randperm).2).1
    (sort (subsample class0 class1 randperm).1 (subsample class0 class1 randperm).2).2
  rw [hc0, hc1]
  unfold sort
  rw [List.length_mergeSort, List.length_mergeSort, hs1, hs2]

/-- Gathering a mapped list at an in-bounds index. -/
theorem getD_map {α β : Type} (f : α → β) (l : List α) (i : ℕ)
    (hi : i < l.length) (d : α) (d' : β) :
    (l.map f).getD i d' = f (l.getD i d) := by
  rw [List.getD_eq_getElem _ _ (by simpa using hi), List.getElem_map,
    List.getD_eq_getElem _ _ hi]

/-- C7: `filter_and_reverse` returns the reordered class-0 block followed by
the reordered class-1 block (each block a permutation of its input class),
and the targets are exactly `|class0|` zeros followed by `|class1|` ones,
assigned purely by block position. -/
theorem c7_filter_and_reverse_blocks (class0 class1 : List (ℚ × ℚ)) :
    (filter_and_reverse class0 class1).1 =
      (class0.filter (fun p => (0 : ℚ) ≤ p.2) ++
        (class0.filter (fun p => p.2 < 0)).reverse) ++
      (class1.filter (fun p => (0 : ℚ) ≤ p.2) ++
        (class1.filter (fun p => p.2 < 0)).reverse) ∧
    ((filter_and_reverse class0 class1).1).Perm (class0 ++ class1) ∧
    (filter_and_reverse class0 class1).2 =
      List.replicate class0.length (0 : ℚ) ++
        List.replicate class1.length (1 : ℚ) ∧
    (filter_and_reverse class0 class1).2.count 0 = class0.length ∧
    (filter_and_reverse class0 class1).2.count 1 = class1.length := by
  obtain ⟨hc0, hc1⟩ := filter_and_reverse_counts class0 class1
  refine ⟨rfl, ?_, ?_, hc0, hc1⟩
  · exact (reorder_perm class0).append (reorder_perm class1)
  · simp only [filter_and_reverse]
    rw [(reorder_perm class0).length_eq, (reorder_perm class1).length_eq]

/-- C6: with inner radius 0.25, gap 0.5 and outer radius 1, every sample the
ring step labels class 0 has norm < 0.25 and every sample labeled class 1 has
norm strictly between 0.75 and 1 (both before subsampling); and after
`process_dataset` (subsample, sort, filter-and-reverse) the class-0 and
class-1 output counts are equal. -/
theorem c6_ring_labels_and_balance (rand data : List (ℚ × ℚ))
    (labels : List RLabel) (class0 class1 : List (ℚ × ℚ)) (randperm : List ℕ)
    (hring : ring rand (1/4) (1/2) 1 = some (data, labels))
    (hp : randperm.Perm (List.range (max class0.length class1.length))) :
    (∀ i, i < data.length →
      (labels.getD i RLabel.uninit = RLabel.zero →
        np_norm (data.getD i (0, 0)) < 1/4) ∧
      (labels.getD i RLabel.uninit = RLabel.one →
        3/4 < np_norm (data.getD i (0, 0)) ∧ np_norm (data.getD i (0, 0)) < 1)) ∧
    (process_dataset class0 class1 randperm).2.count 0 =
      (process_dataset class0 class1 randperm).2.count 1 := by
  constructor
  · simp only [ring] at hring
    rw [if_pos (by norm_num)] at hring
    have h' := Option.some.inj hring
    rw [Prod.mk.injEq] at h'
    obtain ⟨hdata, hlab⟩ := h'
    subst hdata
    subst hlab
    intro i hi
    rw [getD_map _ _ i hi (0, 0) RLabel.uninit]
    constructor
    · intro hz
      have hn := ring_label_zero_norm hz
      have hc : ((1/4 : ℚ) : ℝ) = 1/4 := by norm_num
      rw [hc] at hn
      exact hn
    · intro ho
      have hb := ring_label_one_bounds ho
      have hc1 : ((1 : ℚ) : ℝ) = 1 := by norm_num
      have hc2 : ((1/4 : ℚ) : ℝ) + ((1/2 : ℚ) : ℝ) = 3/4 := by norm_num
      rw [hc1, hc2] at hb
      exact ⟨hb.2, hb.1⟩
  · exact process_dataset_counts_eq class0 class1 randperm hp

theorem c6_witness :
    (∀ i, i < ([((0 : ℚ), (0 : ℚ))]).length →
      (([RLabel.zero]).getD i RLabel.uninit = RLabel.zero →
        np_norm (([((0 : ℚ), (0 : ℚ))]).getD i (0, 0)) < 1/4) ∧
      (([RLabel.zero]).getD i RLabel.uninit = RLabel.one →
        3/4 < np_norm (([((0 : ℚ), (0 : ℚ))]).getD i (0, 0)) ∧
          np_norm (([((0 : ℚ), (0 : ℚ))]).getD i (0, 0)) < 1)) ∧
    (process_dataset [((0 : ℚ), (0 : ℚ))] [((0 : ℚ), (0 : ℚ))] [0]).2.count 0 =
      (process_dataset [((0 : ℚ), (0 : ℚ))] [((0 : ℚ), (0 : ℚ))] [0]).2.count 1 :=
  c6_ring_labels_and_balance [((1 : ℚ)/2, (1 : ℚ)/2)] [((0 : ℚ), (0 : ℚ))]
    [RLabel.zero] [((0 : ℚ), (0 : ℚ))] [((0 : ℚ), (0 : ℚ))] [0]
    (by
      have hlab0 : ring_label (1/4) (1/2) 1 ((0 : ℚ), (0 : ℚ)) = RLabel.zero := by
        have h0 : np_norm ((0 : ℚ), (0 : ℚ)) = 0 := by simp [np_norm]
        unfold ring_label
        rw [h0]
        rw [if_neg (by norm_num), if_neg (by norm_num), if_neg (by norm_num),
          if_pos (by norm_num)]
      have hsamp : ([((1 : ℚ)/2, (1 : ℚ)/2)].map (fun r =>
          ((-1 * (1 : ℚ) + 2 * 1 * r.1 : ℚ), (-1 * (1 : ℚ) + 2 * 1 * r.2 : ℚ)))) =
          [((0 : ℚ), (0 : ℚ))] := by norm_num
      unfold ring
      rw [if_pos (by norm_num)]
      simp only [hsamp, List.map_cons, List.map_nil, hlab0])
    (by decide)
